import Mathlib

set_option maxRecDepth 40000
set_option exponentiation.threshold 20000

/-!
Shallow embedding of `src/project3.py`, an interactive on-disk B-tree index
manager (512-byte blocks, minimum degree 4, big-endian integers).

The index file is modelled as a `PFile`: a length together with the byte
string encoded positionally in a natural number (byte `i` of the file is
digit `i` in base 256), which keeps concrete evaluation shallow.  Blocks
and packed structures are plain byte lists.  In-memory `BTreeNode`
objects are explicit records; Python's in-place mutation is modelled by
explicit state passing.  Fallible code paths (IndexError, struct.error,
DuplicateKeyError, caught-and-printed exceptions) are modelled with
`Option`/explicit outcome types, mirroring exactly which exceptions the
source catches and which propagate.
-/

namespace Project3

def BLOCK_SIZE : Nat := 512

def MIN_DEGREE : Nat := 4

/-- Bytes of the magic header `b'BTREEIDX'`. -/
def MAGIC_HEADER : List Nat := [66, 84, 82, 69, 69, 73, 68, 88]

/-- Big-endian encoding of `n` on `w` bytes, as `struct.pack` does for
`>I` (`w = 4`) and `>Q` (`w = 8`) when `n` fits in `w` bytes. -/
def beBytes : Nat → Nat → List Nat
  | 0, _ => []
  | w + 1, n => beBytes w (n / 256) ++ [n % 256]

/-- Big-endian value of a byte list, as `struct.unpack` reads `>I`/`>Q`. -/
def beVal (l : List Nat) : Nat := l.foldl (fun acc b => acc * 256 + b) 0

/-- Positional encoding of a byte list into one natural number: the first
byte is the least significant base-256 digit. -/
def bytesToNat : List Nat → Nat
  | [] => 0
  | b :: bs => b + 256 * bytesToNat bs

/-- Byte `i` of a positionally encoded byte string. -/
def byteAt (data i : Nat) : Nat := data / 256 ^ i % 256

/-- One regular file: its byte length and its contents, encoded
positionally in base 256 (byte `i` at factor `256 ^ i`). -/
structure PFile where
  size : Nat
  data : Nat
deriving Repr, DecidableEq

/-- Read up to `w` bytes at byte offset `off`
(`f.seek(off); f.read(w)`); a read past end-of-file yields the shorter
(possibly empty) available range. -/
def readBytes (f : PFile) (off w : Nat) : List Nat :=
  (List.range (min w (f.size - off))).map (fun i => byteAt f.data (off + i))

/-- Read `w` bytes big-endian at byte offset `off` of the file. -/
def readBE (f : PFile) (off w : Nat) : Nat := beVal (readBytes f off w)

/-- Read one 512-byte block at `off` (`f.seek(off); f.read(BLOCK_SIZE)`). -/
def readBlock (f : PFile) (off : Nat) : List Nat := readBytes f off BLOCK_SIZE

/-- Overwrite the file in place at `off` with `bytes`
(`f.seek(off); f.write(bytes)` on a file opened `r+b`): digits below
`off` and from `off + |bytes|` upward are preserved, the written range
is replaced, and the size grows when the write extends the file. -/
def writeBytes (f : PFile) (off : Nat) (bytes : List Nat) : PFile :=
  { size := max f.size (off + bytes.length)
    data := f.data % 256 ^ off + bytesToNat bytes * 256 ^ off
      + f.data / 256 ^ (off + bytes.length) * 256 ^ (off + bytes.length) }

/-- Append `count` zero bytes at end-of-file (`open(..., 'ab')` followed
by writing zeros, as `allocate_offset` does); zero digits leave the
encoded contents unchanged. -/
def appendZeros (f : PFile) (count : Nat) : PFile :=
  { size := f.size + count, data := f.data }

/-- Contents written by `create_index_file`: magic, 8-byte root offset 0,
zero padding to 512 bytes. -/
def freshIndexFile : PFile :=
  { size := BLOCK_SIZE
    data := bytesToNat (MAGIC_HEADER ++ beBytes 8 0 ++ List.replicate (BLOCK_SIZE - 8 - 8) 0) }

/-- Semantics of `IndexManager.update_root_offset`: rewrite bytes 8..16 of
the open file with the big-endian root offset. -/
def updateRootOffset (f : PFile) (off : Nat) : PFile :=
  writeBytes f 8 (beBytes 8 off)

/-- Semantics of Python's `list.insert(i, x)`: insert at position `i`,
clamping to the end when `i` exceeds the length. -/
def pyInsert {α : Type} (l : List α) (i : Nat) (x : α) : List α :=
  l.take i ++ [x] ++ l.drop i

/-- In-memory view of one B-tree node (`BTreeNode.__init__` fields).
A freshly constructed node has empty `keys`/`values`/`children`. -/
structure BTreeNode where
  is_leaf : Bool
  keys : List Nat
  values : List Nat
  children : List Nat
  offset : Nat
deriving Repr, DecidableEq

/-- Block contents produced by `BTreeNode.save`: `>?I` header (leaf flag
byte and key count), the keys, the values, the child offsets, then zero
padding.  As in the source, the padding amount is `BLOCK_SIZE - len(data)`
which in Python is an empty byte string when the payload exceeds 512
(`b'\x00' * negative == b''`); natural subtraction models that exactly.
No key-count validation is performed. -/
def nodeData (n : BTreeNode) : List Nat :=
  let d := [if n.is_leaf then 1 else 0] ++ beBytes 4 n.keys.length
    ++ (n.keys.flatMap (beBytes 4)) ++ (n.values.flatMap (beBytes 4))
    ++ (n.children.flatMap (beBytes 8))
  d ++ List.replicate (BLOCK_SIZE - d.length) 0

/-- Semantics of `BTreeNode.load` parsing one block: byte 0 is the leaf
flag (`>?`: any nonzero byte is true), bytes 1..5 the key count, then
`num_keys` 4-byte keys, `num_keys` 4-byte values, and for an internal
node `num_keys + 1` 8-byte child offsets.  `none` models a
`struct.error` raised when a slice is shorter than its format requires
(the source only catches `IOError` in `load`, so `struct.error`
propagates to the caller).  For a leaf the `children` list keeps the
constructor's empty default. -/
def decodeNodeE (block : List Nat) (off : Nat) : Option BTreeNode :=
  if block.length < 5 then none
  else
    let isl : Bool := block.getD 0 0 != 0
    let num := beVal ((block.drop 1).take 4)
    if isl then
      if 5 + 8 * num ≤ block.length then
        some { is_leaf := true
               keys := (List.range num).map (fun i => beVal ((block.drop (5 + 4 * i)).take 4))
               values := (List.range num).map
                 (fun i => beVal ((block.drop (5 + 4 * num + 4 * i)).take 4))
               children := []
               offset := off }
      else none
    else
      if 5 + 8 * num + 8 * (num + 1) ≤ block.length then
        some { is_leaf := false
               keys := (List.range num).map (fun i => beVal ((block.drop (5 + 4 * i)).take 4))
               values := (List.range num).map
                 (fun i => beVal ((block.drop (5 + 4 * num + 4 * i)).take 4))
               children := (List.range (num + 1)).map
                 (fun i => beVal ((block.drop (5 + 8 * num + 8 * i)).take 8))
               offset := off }
      else none

/-- File contents after `BTreeNode.save` writes the node's block in place. -/
def saveNode (f : PFile) (n : BTreeNode) : PFile :=
  writeBytes f n.offset (nodeData n)

/-- Outcome of `BTreeNode.split_child`.  `file` is the file after the
call, `parent` is `self` and `child` the argument node, both as left in
memory; `ok = false` records that an exception was caught by the
method's own handler (which prints `Error splitting child node.` and
returns normally, leaving the saves unexecuted). -/
structure SplitResult where
  file : PFile
  parent : BTreeNode
  child : BTreeNode
  ok : Bool
deriving Repr, DecidableEq

/-- Semantics of `BTreeNode.split_child(index, child)`.  A new sibling
block is allocated (file append), the new sibling takes the child's tail
entries, the child is truncated in place to its first `mid = t-1`
entries, and only then does the source evaluate `child.keys[mid]` to
promote the middle key, so the subscript is applied to the already
truncated list.  The success continuation transcribes the remaining
statements in source order (each `list.insert` argument is evaluated
before the insertion, and the value subscript is evaluated after the key
insertion already happened). -/
def splitChild (file : PFile) (parent : BTreeNode) (index : Nat) (child : BTreeNode) :
    SplitResult :=
  let mid := MIN_DEGREE - 1
  let newOffset := file.size
  let file1 := appendZeros file BLOCK_SIZE
  let newChild : BTreeNode :=
    { is_leaf := child.is_leaf
      keys := child.keys.drop (mid + 1)
      values := child.values.drop (mid + 1)
      children := if child.is_leaf then [] else child.children.drop (mid + 1)
      offset := newOffset }
  let child1 : BTreeNode :=
    { child with
      keys := child.keys.take mid
      values := child.values.take mid
      children := if child.is_leaf then child.children else child.children.take (mid + 1) }
  match child1.keys.get? mid with
  | none => { file := file1, parent := parent, child := child1, ok := false }
  | some pk =>
    match child1.values.get? mid with
    | none =>
        { file := file1
          parent := { parent with keys := pyInsert parent.keys index pk }
          child := child1, ok := false }
    | some pv =>
      let parent1 : BTreeNode :=
        { parent with
          keys := pyInsert parent.keys index pk
          values := pyInsert parent.values index pv
          children := pyInsert parent.children (index + 1) newChild.offset }
      let file2 := saveNode file1 child1
      let file3 := saveNode file2 newChild
      let file4 := saveNode file3 parent1
      { file := file4, parent := parent1, child := child1, ok := true }

/-- Shift loop of the leaf branch of `insert_non_full`: starting from
`i = len(keys) - 1` (the fuel argument is `i + 1`), while `i ≥ 0` and
`key < keys[i]`, copy slot `i` to slot `i+1` and decrement.  Returns the
shifted key and value arrays and the final `i + 1`. -/
def leafShift : Nat → List Nat → List Nat → Nat → List Nat × List Nat × Nat
  | 0, ks, vs, _ => (ks, vs, 0)
  | i + 1, ks, vs, key =>
    if key < ks.getD i 0 then
      leafShift i (ks.set (i + 1) (ks.getD i 0)) (vs.set (i + 1) (vs.getD i 0)) key
    else (ks, vs, i + 1)

/-- Scan of the internal branch of `insert_non_full`: starting from
`i = len(keys) - 1` (fuel is `i + 1`), decrement while `key < keys[i]`,
then return `i + 1`. -/
def descendPos : Nat → List Nat → Nat → Nat
  | 0, _, _ => 0
  | i + 1, ks, key => if key < ks.getD i 0 then descendPos i ks key else i + 1

/-- Outcome of one `insert_non_full` invocation on a node.  `ok`: normal
return; `dup`: `DuplicateKeyError` re-raised to the caller; `err`: some
other exception was caught by this invocation's own handler (which
prints `An error occurred during insertion.` and returns normally).  The
node component is the invoked object as left in memory. -/
inductive InsOutcome where
  | ok (file : PFile) (node : BTreeNode)
  | dup (file : PFile) (node : BTreeNode)
  | err (file : PFile) (node : BTreeNode)
deriving Repr, DecidableEq

/-- Reload of the (possibly new) child at `children[p]` followed by the
recursive `child.insert_non_full(key, value)` call (source line 255),
parameterised by the recursive invocation `ins` (the same
`insert_non_full` at the remaining recursion budget).  The child
invocation swallows its own non-duplicate exceptions, so only
`DuplicateKeyError` propagates to this frame. -/
def insertIntoChild (ins : PFile → BTreeNode → Nat → Nat → InsOutcome)
    (file : PFile) (node : BTreeNode) (p key value : Nat) : InsOutcome :=
  match node.children.get? p with
  | none => .err file node
  | some coff =>
    match decodeNodeE (readBlock file coff) coff with
    | none => .err file node
    | some child =>
      match ins file child key value with
      | .ok f2 _ => .ok f2 node
      | .dup f2 _ => .dup f2 node
      | .err f2 _ => .ok f2 node

/-- Semantics of `BTreeNode.insert_non_full(key, value)`.  Leaf branch:
append a zero slot to keys and values, shift entries greater than `key`
one slot right, raise `DuplicateKeyError` (before any save) if the
element that stopped the shift equals `key`, otherwise store the new
entry and save the node.  Internal branch: locate the child position,
load the child from disk (a failed decode is a `struct.error` caught by
this invocation's generic handler), split it when full, then compare
against `self.keys[i]` (an out-of-range subscript there is an
`IndexError` caught by the generic handler), reload the child at the
possibly shifted position and recurse.  Fuel stands for Python's
recursion limit; exhaustion lands in the same generic handler. -/
def insertNonFull : Nat → PFile → BTreeNode → Nat → Nat → InsOutcome
  | 0, file, node, _, _ => .err file node
  | fuel + 1, file, node, key, value =>
    if node.is_leaf then
      let r := leafShift node.keys.length (node.keys ++ [0]) (node.values ++ [0]) key
      let p := r.2.2
      if 0 < p ∧ r.1.getD (p - 1) 0 = key then
        .dup file { node with keys := r.1, values := r.2.1 }
      else
        let node1 := { node with keys := r.1.set p key, values := r.2.1.set p value }
        .ok (saveNode file node1) node1
    else
      let p := descendPos node.keys.length node.keys key
      match node.children.get? p with
      | none => .err file node
      | some coff =>
        match decodeNodeE (readBlock file coff) coff with
        | none => .err file node
        | some child =>
          if child.keys.length = 2 * MIN_DEGREE - 1 then
            let s := splitChild file node p child
            match s.parent.keys.get? p with
            | none => .err s.file s.parent
            | some ki =>
              let p1 := if key > ki then p + 1 else p
              insertIntoChild (insertNonFull fuel) s.file s.parent p1 key value
          else
            insertIntoChild (insertNonFull fuel) file node p key value

/-- Search result of `IndexManager.search` or `BTreeNode.search_key`.
`errS` models an exception caught by `search`'s handler; `emptyTree`
models the `The B-tree is empty.` message; `noIndexOpenS` the guard
message when no file is open. -/
inductive SearchRes where
  | found (v : Nat)
  | notFound
  | errS
  | emptyTree
  | noIndexOpenS
deriving Repr, DecidableEq

/-- Semantics of `BTreeNode.search_key(key)`: linear scan for the first
position `i` with `key ≤ keys[i]`, return `values[i]` on equality,
`notFound` at a leaf, otherwise recurse into the child loaded from
`children[i]`. -/
def searchKey : Nat → PFile → BTreeNode → Nat → SearchRes
  | 0, _, _, _ => .errS
  | fuel + 1, file, node, key =>
    let i := (node.keys.takeWhile (fun x => decide (x < key))).length
    if i < node.keys.length ∧ node.keys.getD i 0 = key then
      match node.values.get? i with
      | none => .errS
      | some v => .found v
    else if node.is_leaf then .notFound
    else
      match node.children.get? i with
      | none => .errS
      | some coff =>
        match decodeNodeE (readBlock file coff) coff with
        | none => .errS
        | some child => searchKey fuel file child key

/-- In-order folding of an internal node's entry/child sequence: child,
entry, child, entry, ..., final child (`children[-1]`), parameterised by
the recursive traversal `trav` of one child node. -/
def traverseSeq (trav : BTreeNode → Option (List (Nat × Nat))) (file : PFile) :
    List (Nat × Nat) → List Nat → Option (List (Nat × Nat))
  | [], [c] =>
    match decodeNodeE (readBlock file c) c with
    | none => none
    | some child => trav child
  | (k, v) :: ps, c :: cs =>
    match decodeNodeE (readBlock file c) c with
    | none => none
    | some child =>
      match trav child with
      | none => none
      | some l =>
        match traverseSeq trav file ps cs with
        | none => none
        | some r => some (l ++ [(k, v)] ++ r)
  | _, _ => none

/-- Semantics of `BTreeNode.traverse`: in-order visitation collecting
`(key, value)` pairs.  `none` models an uncaught exception (`traverse`
has no handler): recursion-limit exhaustion, a missing child subscript,
or a failed child decode. -/
def traverseNode : Nat → PFile → BTreeNode → Option (List (Nat × Nat))
  | 0, _, _ => none
  | fuel + 1, file, node =>
    if node.is_leaf then some (node.keys.zip node.values)
    else traverseSeq (traverseNode fuel file) file (node.keys.zip node.values) node.children

/-- Message printed by `IndexManager.insert`. -/
inductive InsertMsg where
  | inserted
  | duplicate
  | noIndexOpen
deriving Repr, DecidableEq

/-- Session state while one index file is open: the open file's bytes and
the in-memory `self.root` object (which persists across commands). -/
structure Session where
  file : PFile
  root : Option BTreeNode
deriving Repr, DecidableEq

/-- Semantics of `IndexManager.insert(key, value)` with a file open.
Empty tree: allocate a block, build the one-entry leaf, save it, update
the header root offset.  Full root: allocate a new internal root holding
only the old root's offset, run `split_child(0, root)` (whose
exceptions it swallows internally), adopt the new root, update the
header, and continue with `insert_non_full`.  A `DuplicateKeyError`
reaches this method's dedicated handler; any `err` outcome was already
swallowed inside `insert_non_full`, so the method still reports
`Inserted key ...`. -/
def managerInsert (fuel : Nat) (s : Session) (key value : Nat) : Session × InsertMsg :=
  match s.root with
  | none =>
    let off := s.file.size
    let file1 := appendZeros s.file BLOCK_SIZE
    let node : BTreeNode :=
      { is_leaf := true, keys := [key], values := [value], children := [], offset := off }
    let file2 := saveNode file1 node
    let file3 := updateRootOffset file2 off
    ({ file := file3, root := some node }, .inserted)
  | some r =>
    if r.keys.length = 2 * MIN_DEGREE - 1 then
      let off := s.file.size
      let file1 := appendZeros s.file BLOCK_SIZE
      let newRoot : BTreeNode :=
        { is_leaf := false, keys := [], values := [], children := [r.offset], offset := off }
      let sp := splitChild file1 newRoot 0 r
      let file2 := updateRootOffset sp.file sp.parent.offset
      match insertNonFull fuel file2 sp.parent key value with
      | .ok f n => ({ file := f, root := some n }, .inserted)
      | .err f n => ({ file := f, root := some n }, .inserted)
      | .dup f n => ({ file := f, root := some n }, .duplicate)
    else
      match insertNonFull fuel s.file r key value with
      | .ok f n => ({ file := f, root := some n }, .inserted)
      | .err f n => ({ file := f, root := some n }, .inserted)
      | .dup f n => ({ file := f, root := some n }, .duplicate)

/-- Semantics of `IndexManager.search(key)` with a file open. -/
def managerSearch (fuel : Nat) (s : Session) (key : Nat) : SearchRes :=
  match s.root with
  | none => .emptyTree
  | some r => searchKey fuel s.file r key

/-- Run a list of `insert` commands in order on an open session. -/
def insertSeq (fuel : Nat) (s : Session) : List (Nat × Nat) → Session
  | [] => s
  | (k, v) :: rest => insertSeq fuel (managerInsert fuel s k v).1 rest

/-- Session obtained by `create` followed by `open` on a fresh file:
the header's root offset is 0, so `self.root` is `None`. -/
def openedFresh : Session := { file := freshIndexFile, root := none }

/-- Session after scenario E3: seven ascending inserts into a fresh index. -/
def e3 : Session :=
  insertSeq 100 openedFresh [(10, 1), (20, 2), (30, 3), (40, 4), (50, 5), (60, 6), (70, 7)]

/-- Session after scenario E4: the eighth insert `(80, 8)`, which makes
`insert` take the root-split path. -/
def e4 : Session := (managerInsert 100 e3 80 8).1

/-- Session after a single insert `(5, 50)` into a fresh index. -/
def sDup1 : Session := (managerInsert 100 openedFresh 5 50).1

/-- Result of inserting key 5 a second time (duplicate). -/
def sDup2 : Session × InsertMsg := managerInsert 100 sDup1 5 99

/-- Result of scenario E2: a single insert `(42, 100)` into a fresh index. -/
def e2s : Session × InsertMsg := managerInsert 100 openedFresh 42 100

/-- Session state of the `IndexManager` object itself: the current open
filename (`self.index_file`) and the cached root object (`self.root`). -/
structure ManagerState where
  indexFile : Option String
  root : Option BTreeNode
deriving Repr, DecidableEq

/-- File system visible to the manager: index files by name. -/
abbrev FS : Type := String → Option PFile

/-- Text files by name, each file given as its list of lines. -/
abbrev TextFS : Type := String → Option (List (List Char))

/-- File system after (re)writing one index file. -/
def updateFS (fs : FS) (name : String) (f : PFile) : FS :=
  fun s => if s = name then some f else fs s

/-- Text file system after (re)writing one text file. -/
def updateTextFS (fs : TextFS) (name : String) (lines : List (List Char)) : TextFS :=
  fun s => if s = name then some lines else fs s

/-- Outcome of constructing `BTreeNode(manager, offset=off)` during
`open_index_file`: the constructor calls `load()`, which opens
`self.index_manager.index_file` — the session's PREVIOUS filename.
With no previous file, `open(None)` raises `TypeError`, which no handler
catches (crash).  With a previous name whose file is missing,
`FileNotFoundError` is an `IOError`, caught inside `load`, leaving the
constructor defaults (`is_leaf=False`, empty lists).  Otherwise the
block is read from the PREVIOUS file; a short or malformed block raises
`struct.error`, which no handler catches (crash). -/
inductive LoadResult where
  | okL (n : BTreeNode)
  | crashL
deriving Repr, DecidableEq

/-- Construction of the root `BTreeNode` inside `open_index_file`; see
`LoadResult` for the cases. -/
def constructNode (indexFile : Option String) (fs : FS) (off : Nat) : LoadResult :=
  match indexFile with
  | none => .crashL
  | some name =>
    match fs name with
    | none => .okL { is_leaf := false, keys := [], values := [], children := [], offset := off }
    | some f =>
      match decodeNodeE (readBlock f off) off with
      | none => .crashL
      | some n => .okL n

/-- Outcome of `IndexManager.open_index_file`: either the new manager
state, or an uncaught exception terminating the program. -/
inductive OpenOutcome where
  | ok (st : ManagerState)
  | crash
deriving Repr, DecidableEq

/-- Semantics of `IndexManager.open_index_file(filename)`.  A missing
file or a bad magic prints an error and leaves the state unchanged.
Otherwise the root offset is read from `filename`'s header (fewer than
16 bytes make the 8-byte unpack raise `struct.error`, uncaught), but the
root node itself is constructed BEFORE `self.index_file` is assigned, so
its block is loaded through the previous filename (see
`constructNode`). -/
def openIndexFile (fs : FS) (st : ManagerState) (filename : String) : OpenOutcome :=
  match fs filename with
  | none => .ok st
  | some f =>
    if readBytes f 0 8 = MAGIC_HEADER then
      if f.size < 16 then .crash
      else
        let rootOffset := readBE f 8 8
        if rootOffset = 0 then .ok { indexFile := some filename, root := none }
        else
          match constructNode st.indexFile fs rootOffset with
          | .crashL => .crash
          | .okL n => .ok { indexFile := some filename, root := some n }
    else .ok st

/-- Semantics of `IndexManager.create_index_file(filename)` on its
success paths: when the file exists the user is asked to confirm the
overwrite (`confirmOverwrite` is the answer `y`; a refusal prints
`Operation cancelled.` and changes nothing).  The method writes the
fresh header file and — notably — never assigns `self.index_file` or
`self.root`, so the manager state is returned untouched. -/
def createIndexFile (fs : FS) (st : ManagerState) (filename : String)
    (confirmOverwrite : Bool) : FS × ManagerState :=
  match fs filename with
  | some _ =>
    if confirmOverwrite then (updateFS fs filename freshIndexFile, st) else (fs, st)
  | none => (updateFS fs filename freshIndexFile, st)

/-- The empty file, as created by opening a missing path in append mode. -/
def emptyPFile : PFile := { size := 0, data := 0 }

/-- Semantics of `IndexManager.insert` at the session level: the
`self.index_file is None` guard, then the open-file insert logic of
`managerInsert` against the named file's bytes. -/
def managerInsertFS (fuel : Nat) (fs : FS) (st : ManagerState) (key value : Nat) :
    FS × ManagerState × InsertMsg :=
  match st.indexFile with
  | none => (fs, st, .noIndexOpen)
  | some name =>
    let r := managerInsert fuel { file := (fs name).getD emptyPFile, root := st.root } key value
    (updateFS fs name r.1.file, { st with root := r.1.root }, r.2)

/-- Semantics of `IndexManager.search` at the session level. -/
def managerSearchFS (fuel : Nat) (fs : FS) (st : ManagerState) (key : Nat) : SearchRes :=
  match st.indexFile with
  | none => .noIndexOpenS
  | some name => managerSearch fuel { file := (fs name).getD emptyPFile, root := st.root } key

/-- Message printed by `IndexManager.print_all`; `crashP` models an
uncaught exception escaping `traverse`. -/
inductive PrintRes where
  | noIndexOpenP
  | emptyTreeP
  | entries (l : List (Nat × Nat))
  | crashP
deriving Repr, DecidableEq

/-- Semantics of `IndexManager.print_all`. -/
def printAllFS (fuel : Nat) (fs : FS) (st : ManagerState) : PrintRes :=
  match st.indexFile with
  | none => .noIndexOpenP
  | some name =>
    match st.root with
    | none => .emptyTreeP
    | some r =>
      match traverseNode fuel ((fs name).getD emptyPFile) r with
      | none => .crashP
      | some l => .entries l

/-- Message printed by `IndexManager.extract_to_file`; `crashE` models an
uncaught exception escaping `traverse` (the partially written output
file of that aborted process is not modelled). -/
inductive ExtractRes where
  | noIndexOpenE
  | emptyTreeE
  | extracted
  | crashE
deriving Repr, DecidableEq

/-- Text rendering `f"{key},{value}"` of one traversal entry. -/
def renderEntry (kv : Nat × Nat) : List Char :=
  (toString kv.1).toList ++ [','] ++ (toString kv.2).toList

/-- Semantics of `IndexManager.extract_to_file(filename)`: the no-index
guard, then `open(filename, 'w')` (which creates or truncates the text
file even when the tree is empty) and an in-order dump of all entries. -/
def extractToFileFS (fuel : Nat) (fs : FS) (textFs : TextFS) (st : ManagerState)
    (outName : String) : TextFS × ExtractRes :=
  match st.indexFile with
  | none => (textFs, .noIndexOpenE)
  | some name =>
    match st.root with
    | none => (updateTextFS textFs outName [], .emptyTreeE)
    | some r =>
      match traverseNode fuel ((fs name).getD emptyPFile) r with
      | none => (textFs, .crashE)
      | some l => (updateTextFS textFs outName (l.map renderEntry), .extracted)

/-- Semantics of Python's `int()` on the nonnegative decimal strings the
data files are specified to contain: all-digit nonempty text parses to
its value, anything else raises `ValueError` (`none`). -/
def pyParseNat (cs : List Char) : Option Nat :=
  match cs with
  | [] => none
  | _ =>
    if cs.all Char.isDigit then
      some (cs.foldl (fun acc c => acc * 10 + (c.toNat - 48)) 0)
    else none

/-- Whitespace stripping from both ends, as Python's `str.strip()`. -/
def pyStrip (cs : List Char) : List Char :=
  ((cs.dropWhile Char.isWhitespace).reverse.dropWhile Char.isWhitespace).reverse

/-- Processing of one line of a `load` data file (`load_data` loop body):
strip, skip blank lines, split on commas, require exactly two fields,
parse both as integers, and insert; malformed lines are reported and
skipped. -/
def loadLine (fuel : Nat) (fs : FS) (st : ManagerState) (line : List Char) :
    FS × ManagerState :=
  let l := pyStrip line
  match l with
  | [] => (fs, st)
  | _ =>
    match l.splitOn ',' with
    | [a, b] =>
      match pyParseNat (pyStrip a), pyParseNat (pyStrip b) with
      | some k, some v =>
        let r := managerInsertFS fuel fs st k v
        (r.1, r.2.1)
      | _, _ => (fs, st)
    | _ => (fs, st)

/-- Message printed by `IndexManager.load_data`. -/
inductive LoadRes where
  | noIndexOpenL
  | fileNotFoundL
  | loaded
deriving Repr, DecidableEq

/-- Semantics of `IndexManager.load_data(filename)`: the no-index guard,
the existence check on the text file, then one `loadLine` per line. -/
def loadDataFS (fuel : Nat) (fs : FS) (textFs : TextFS) (st : ManagerState)
    (filename : String) : FS × ManagerState × LoadRes :=
  match st.indexFile with
  | none => (fs, st, .noIndexOpenL)
  | some _ =>
    match textFs filename with
    | none => (fs, st, .fileNotFoundL)
    | some lines =>
      let r := lines.foldl (fun acc line => loadLine fuel acc.1 acc.2 line) (fs, st)
      (r.1, r.2, .loaded)

/-- Lowercasing of a whole line, as `str.lower()` does for the ASCII
range the command grammar uses. -/
def pyLower (cs : List Char) : List Char := cs.map Char.toLower

/-- Semantics of Python's `str.split(maxsplit=1)`: skip leading
whitespace, take the first whitespace-free token, then the remainder
after the following whitespace run (kept verbatim, trailing whitespace
included); an all-whitespace string yields no parts. -/
def pySplitMax1 (cs : List Char) : List (List Char) :=
  let s1 := cs.dropWhile Char.isWhitespace
  match s1 with
  | [] => []
  | _ =>
    let tok := s1.takeWhile (fun c => !c.isWhitespace)
    let rest := (s1.dropWhile (fun c => !c.isWhitespace)).dropWhile Char.isWhitespace
    if rest = [] then [tok] else [tok, rest]

/-- Worker for `pySplit`; the fuel (initial string length) bounds the
number of tokens. -/
def pySplitGo : Nat → List Char → List (List Char)
  | 0, _ => []
  | n + 1, cs =>
    let s1 := cs.dropWhile Char.isWhitespace
    match s1 with
    | [] => []
    | _ =>
      s1.takeWhile (fun c => !c.isWhitespace) ::
        pySplitGo n (s1.dropWhile (fun c => !c.isWhitespace))

/-- Semantics of Python's `str.split()` with no arguments: all
whitespace-separated tokens. -/
def pySplit (cs : List Char) : List (List Char) := pySplitGo cs.length cs

/-- Test for `str.startswith(pre)`. -/
def pyStartsWith (cs pre : List Char) : Bool := decide (cs.take pre.length = pre)

/-- Command recognised by the shell's dispatch, with the argument text it
passes on; `usageErr`, `intErr` and `unknown` stand for the respective
error messages. -/
inductive Command where
  | quitCmd
  | createFile (path : List Char)
  | openFile (path : List Char)
  | insertKV (key value : Nat)
  | searchK (key : Nat)
  | loadFile (path : List Char)
  | printAll
  | extractFile (path : List Char)
  | helpCmd
  | usageErr
  | intErr
  | unknown
deriving Repr, DecidableEq

/-- Semantics of the command dispatch in `main`: the WHOLE input line is
stripped and lowercased first (`input(...).strip().lower()`), and the
lowercased line is what every branch splits its arguments out of. -/
def parseLineChars (line : List Char) : Command :=
  let cmd := pyLower (pyStrip line)
  if cmd = "exit".toList ∨ cmd = "quit".toList then .quitCmd
  else if pyStartsWith cmd ("create ".toList) then
    match pySplitMax1 cmd with
    | [_, p] => .createFile p
    | _ => .usageErr
  else if pyStartsWith cmd ("open ".toList) then
    match pySplitMax1 cmd with
    | [_, p] => .openFile p
    | _ => .usageErr
  else if pyStartsWith cmd ("insert ".toList) then
    match pySplit cmd with
    | [_, a, b] =>
      match pyParseNat a, pyParseNat b with
      | some k, some v => .insertKV k v
      | _, _ => .intErr
    | _ => .usageErr
  else if pyStartsWith cmd ("search ".toList) then
    match pySplit cmd with
    | [_, a] =>
      match pyParseNat a with
      | some k => .searchK k
      | none => .intErr
    | _ => .usageErr
  else if pyStartsWith cmd ("load ".toList) then
    match pySplitMax1 cmd with
    | [_, p] => .loadFile p
    | _ => .usageErr
  else if cmd = "print".toList then .printAll
  else if pyStartsWith cmd ("extract ".toList) then
    match pySplitMax1 cmd with
    | [_, p] => .extractFile p
    | _ => .usageErr
  else if cmd = "help".toList then .helpCmd
  else .unknown

/-- Index file used as the PREVIOUSLY OPEN file in the stale-filename
scenario: a fresh header plus a leaf block `[7] / [70]` at offset 512. -/
def c9OldFile : PFile :=
  writeBytes freshIndexFile 512
    (nodeData { is_leaf := true, keys := [7], values := [70], children := [], offset := 512 })

/-- Index file the `open` command is pointed at in the stale-filename
scenario: valid magic, root offset 512, and a leaf block `[9] / [90]`
at offset 512 — different contents from `c9OldFile`'s block. -/
def c9NewFile : PFile :=
  writeBytes (updateRootOffset freshIndexFile 512) 512
    (nodeData { is_leaf := true, keys := [9], values := [90], children := [], offset := 512 })

/-- Two-file file system for the stale-filename scenario. -/
def c9fs : FS :=
  fun s => if s = "old.idx" then some c9OldFile
    else if s = "new.idx" then some c9NewFile else none

/-- Manager state with `old.idx` as the currently open file. -/
def c9st : ManagerState := { indexFile := some "old.idx", root := none }

end Project3

namespace Project3

/-- Helper: a list truncated to `m` elements has no element at index `m`. -/
theorem getElem?_take_self (l : List Nat) (m : Nat) : (l.take m)[m]? = none := by
  apply List.getElem?_eq_none
  simp

/-- Helper: `beBytes w n` always has exactly `w` bytes. -/
theorem beBytes_length (w : Nat) : ∀ n : Nat, (beBytes w n).length = w := by
  induction w with
  | zero => intro n; rfl
  | succ w ih => intro n; simp [beBytes, ih]

/-- Helper: big-endian value of a list extended by one byte. -/
theorem beVal_append (l : List Nat) (b : Nat) : beVal (l ++ [b]) = beVal l * 256 + b := by
  simp [beVal, List.foldl_append]

/-- Helper: decoding inverts encoding for values that fit in `w` bytes. -/
theorem beVal_beBytes (w : Nat) : ∀ n : Nat, n < 256 ^ w → beVal (beBytes w n) = n := by
  induction w with
  | zero =>
    intro n h
    simp [Nat.pow_zero] at h
    simp [h, beBytes, beVal]
  | succ w ih =>
    intro n h
    have hdiv : n / 256 < 256 ^ w := by
      rw [Nat.div_lt_iff_lt_mul (by norm_num : (0 : Nat) < 256)]
      calc n < 256 ^ (w + 1) := h
        _ = 256 ^ w * 256 := by rw [Nat.pow_succ]
    rw [beBytes, beVal_append, ih (n / 256) hdiv]
    omega

/-- Helper: length of a flat big-endian encoding of a list of values. -/
theorem length_flatMap_beBytes (w : Nat) (ks : List Nat) :
    (ks.flatMap (beBytes w)).length = w * ks.length := by
  induction ks with
  | nil => simp
  | cons k ks ih =>
    simp [List.flatMap_cons, beBytes_length, ih, Nat.mul_succ, Nat.mul_add]
    ring

/-- C1: `split_child` never promotes the middle key.  The source truncates
`child.keys` to its first `t-1 = 3` entries before evaluating
`child.keys[mid]` with `mid = 3`, so the subscript is always out of range:
the resulting `IndexError` is caught by `split_child`'s own handler, the
parent is left unchanged (no key is promoted into it), the child stays
truncated in memory, and the only file change is the newly appended zero
block — none of the three node saves runs.  This contradicts the claim
that `split_child(P, i, C)` promotes `C.keys[t-1]`/`C.values[t-1]` into
`P`. -/
theorem splitChild_always_fails (file : PFile) (parent : BTreeNode)
    (index : Nat) (child : BTreeNode) :
    (splitChild file parent index child).ok = false ∧
    (splitChild file parent index child).parent = parent ∧
    (splitChild file parent index child).child.keys = child.keys.take 3 ∧
    (splitChild file parent index child).file.size = file.size + 512 ∧
    (splitChild file parent index child).file.data = file.data := by
  have h : (child.keys.take 3)[3]? = none := getElem?_take_self child.keys 3
  simp [splitChild, MIN_DEGREE, BLOCK_SIZE, h, appendZeros]

/-- C2: evaluating the model on the failing input.  Starting from a fresh
index, the inserts `(10,1) … (70,7), (80,8)` all run to completion (the
eighth prints `Inserted key 80.`), yet afterwards the header's root
offset is 1024 and the block at 1024 — never written by any save — decodes
as an internal node with zero keys whose only child offset is 0.  That
violates invariant 4 of §3 (a non-empty tree's root holds at least one
key) and invariant 8 (child offsets refer to allocated node blocks;
offset 0 is the header, not a node block). -/
theorem insert_sequence_breaks_invariants :
    (managerInsert 100 e3 80 8).2 = InsertMsg.inserted ∧
    readBE e4.file 8 8 = 1024 ∧
    decodeNodeE (readBlock e4.file 1024) 1024 =
      some { is_leaf := false, keys := [], values := [], children := [0], offset := 1024 } ∧
    e4.file.size = 2560 := by
  refine ⟨by decide, by decide, by decide, by decide⟩

/-- C4: evaluating the model on the failing input.  After the eighth
insert `(80, 8)` completed (message `Inserted key 80.`), `search 80`
returns not-found while the previously inserted keys are still found:
the claim that every inserted pair is afterwards found by `search` fails
on the first sequence that triggers a root split. -/
theorem inserted_key_lost_after_split :
    (managerInsert 100 e3 80 8).2 = InsertMsg.inserted ∧
    managerSearch 100 e4 80 = SearchRes.notFound ∧
    managerSearch 100 e4 10 = SearchRes.found 1 ∧
    managerSearch 100 e4 70 = SearchRes.found 7 := by
  refine ⟨by decide, by decide, by decide, by decide⟩

/-- C3: evaluating the model on the failing input.  Inserting key 5 twice
(values 50 then 99) makes the second insert fail with
`DuplicateKeyError` and leaves the file bytes unchanged, but the leaf
branch of `insert_non_full` had already appended a zero slot to the
in-memory root before raising, so the still-cached root object now holds
`keys = [5, 0]`, and a subsequent `print` traverses one extra `(0, 0)`
entry: the traverse output is not unchanged, contradicting the claim. -/
theorem duplicate_insert_changes_traverse :
    sDup2.2 = InsertMsg.duplicate ∧
    sDup2.1.file = sDup1.file ∧
    sDup1.root =
      some { is_leaf := true, keys := [5], values := [50], children := [], offset := 512 } ∧
    sDup2.1.root =
      some { is_leaf := true, keys := [5, 0], values := [50, 0], children := [], offset := 512 } ∧
    traverseNode 10 sDup1.file
      { is_leaf := true, keys := [5], values := [50], children := [], offset := 512 } =
      some [(5, 50)] ∧
    traverseNode 10 sDup2.1.file
      { is_leaf := true, keys := [5, 0], values := [50, 0], children := [], offset := 512 } =
      some [(5, 50), (0, 0)] := by
  refine ⟨by decide, by decide, by decide, by decide, by decide, by decide⟩

/-- C7: scenario E2.  On a freshly created and opened index, a single
`insert 42 100` grows the file to 1024 bytes, sets the header root
offset to 512, stores a leaf root with `keys = [42]`, `values = [100]`
both in memory and on disk, and afterwards `search 42` finds 100 while
`search 41` reports not-found. -/
theorem single_insert_scenario :
    e2s.1.file.size = 1024 ∧
    readBE e2s.1.file 8 8 = 512 ∧
    e2s.1.root =
      some { is_leaf := true, keys := [42], values := [100], children := [], offset := 512 } ∧
    decodeNodeE (readBlock e2s.1.file 512) 512 =
      some { is_leaf := true, keys := [42], values := [100], children := [], offset := 512 } ∧
    managerSearch 100 e2s.1 42 = SearchRes.found 100 ∧
    managerSearch 100 e2s.1 41 = SearchRes.notFound := by
  refine ⟨by decide, by decide, by decide, by decide, by decide, by decide⟩

/-- C6 counterexample: the encoder does not reject an 8-key node
(`num_keys > 2t-1 = 7`); `save`'s data construction simply packs all the
entries and still produces a full 512-byte block, which even decodes
back to the same node.  The claimed rejection with an error does not
exist in the source. -/
theorem encode_overfull_produces_block :
    (nodeData
      { is_leaf := true, keys := [1, 2, 3, 4, 5, 6, 7, 8],
        values := [10, 20, 30, 40, 50, 60, 70, 80], children := [], offset := 512 }).length
      = 512 ∧
    decodeNodeE
      (nodeData
        { is_leaf := true, keys := [1, 2, 3, 4, 5, 6, 7, 8],
          values := [10, 20, 30, 40, 50, 60, 70, 80], children := [], offset := 512 }) 512 =
      some
        { is_leaf := true, keys := [1, 2, 3, 4, 5, 6, 7, 8],
          values := [10, 20, 30, 40, 50, 60, 70, 80], children := [], offset := 512 } := by
  refine ⟨by decide, by decide⟩

/-- C6 amended: encoding never rejects any node.  For every node,
including those with more than `2t-1` keys, `save` produces a block of
`max 512 (5 + 4·|keys| + 4·|values| + 8·|children|)` bytes without any
error (Python's `b'\x00' * negative` is empty, so oversized payloads are
emitted unpadded). -/
theorem encode_never_rejects (n : BTreeNode) :
    (nodeData n).length =
      max 512 (5 + 4 * n.keys.length + 4 * n.values.length + 8 * n.children.length) := by
  have hk : (n.keys.flatMap (beBytes 4)).length = 4 * n.keys.length :=
    length_flatMap_beBytes 4 n.keys
  have hv : (n.values.flatMap (beBytes 4)).length = 4 * n.values.length :=
    length_flatMap_beBytes 4 n.values
  have hc : (n.children.flatMap (beBytes 8)).length = 8 * n.children.length :=
    length_flatMap_beBytes 8 n.children
  simp only [nodeData, BLOCK_SIZE, List.length_append, List.length_replicate,
    List.length_cons, List.length_nil, beBytes_length, hk, hv, hc]
  omega

end Project3

namespace Project3

/-- Helper: the slice of a flat big-endian encoding at index `i`
recovers the encoding of the `i`-th value. -/
theorem flat_slice (w : Nat) (ks : List Nat) :
    ∀ (tail : List Nat) (i : Nat), i < ks.length →
      (((ks.flatMap (beBytes w)) ++ tail).drop (w * i)).take w = beBytes w (ks.getD i 0) := by
  induction ks with
  | nil => intro tail i hi; simp at hi
  | cons k ks ih =>
    intro tail i hi
    cases i with
    | zero =>
      simp only [List.flatMap_cons, List.append_assoc, Nat.mul_zero, List.drop_zero,
        List.getD_cons_zero]
      have ht := List.take_left (beBytes w k) (ks.flatMap (beBytes w) ++ tail)
      rwa [beBytes_length] at ht
    | succ i =>
      have harith : w * (i + 1) = (beBytes w k).length + w * i := by
        rw [beBytes_length]; ring
      rw [List.flatMap_cons, List.append_assoc, harith, List.drop_append,
        List.getD_cons_succ]
      exact ih _ i (by simpa using hi)

/-- Helper: reading every position of a list back in order is the list. -/
theorem map_range_getD (l : List Nat) :
    (List.range l.length).map (fun i => l.getD i 0) = l := by
  apply List.ext_getElem
  · simp
  · intro n h1 h2
    simp only [List.getElem_map, List.getElem_range]
    rw [List.getD_eq_getElem l 0 h2]

/-- Helper: every `getD` inside the length is a member of the list. -/
theorem getD_mem (l : List Nat) (i : Nat) (h : i < l.length) : l.getD i 0 ∈ l := by
  rw [List.getD_eq_getElem l 0 h]
  exact List.getElem_mem h

/-- Helper: taking the known length of a prefix returns that prefix. -/
theorem take_len_append (l1 l2 : List Nat) (n : Nat) (h : l1.length = n) :
    (l1 ++ l2).take n = l1 := by
  subst h
  exact List.take_left _ _

/-- Helper: dropping a known prefix length plus `m` drops `m` of the rest. -/
theorem drop_len_append (l1 l2 : List Nat) (n m : Nat) (h : l1.length = n) :
    (l1 ++ l2).drop (n + m) = l2.drop m := by
  subst h
  exact List.drop_append m

/-- Helper: `decode (encode n) = n` for the explicit fields of a node
whose shape matches the on-disk format of §3. -/
theorem decode_nodeData (isl : Bool) (ks vs cs : List Nat) (off : Nat)
    (hk : ks.length ≤ 7)
    (hv : vs.length = ks.length)
    (hc : if isl then cs = [] else cs.length = ks.length + 1)
    (hk32 : ∀ x ∈ ks, x < 2 ^ 32)
    (hv32 : ∀ x ∈ vs, x < 2 ^ 32)
    (hc64 : ∀ x ∈ cs, x < 2 ^ 64) :
    (nodeData ⟨isl, ks, vs, cs, off⟩).length = 512 ∧
    decodeNodeE (nodeData ⟨isl, ks, vs, cs, off⟩) off = some ⟨isl, ks, vs, cs, off⟩ := by
  have hcl : cs.length ≤ 8 := by
    cases isl with
    | true => simp at hc; simp [hc]
    | false => simp at hc; omega
  have hkb : (ks.flatMap (beBytes 4)).length = 4 * ks.length := length_flatMap_beBytes 4 ks
  have hvb : (vs.flatMap (beBytes 4)).length = 4 * vs.length := length_flatMap_beBytes 4 vs
  have hcb : (cs.flatMap (beBytes 8)).length = 8 * cs.length := length_flatMap_beBytes 8 cs
  have h256 : (256 : Nat) ^ 4 = 2 ^ 32 := by norm_num
  have h2564 : ks.length < 256 ^ 4 := by omega
  have hblock : nodeData ⟨isl, ks, vs, cs, off⟩ =
      ((if isl then 1 else 0) :: beBytes 4 ks.length) ++
        (ks.flatMap (beBytes 4) ++ (vs.flatMap (beBytes 4) ++ (cs.flatMap (beBytes 8) ++
          List.replicate (BLOCK_SIZE -
            ([if isl then 1 else 0] ++ beBytes 4 ks.length ++ ks.flatMap (beBytes 4)
              ++ vs.flatMap (beBytes 4) ++ cs.flatMap (beBytes 8)).length) 0))) := by
    simp [nodeData, List.append_assoc]
  have hlen : (nodeData ⟨isl, ks, vs, cs, off⟩).length = 512 := by
    simp only [nodeData, BLOCK_SIZE, List.length_append, List.length_cons,
      List.length_nil, beBytes_length, hkb, hvb, hcb, List.length_replicate]
    omega
  have hhdr : ((if isl then (1 : Nat) else 0) :: beBytes 4 ks.length).length = 5 := by
    simp [beBytes_length]
  have F1 : (nodeData ⟨isl, ks, vs, cs, off⟩).getD 0 0 = (if isl then 1 else 0) := by
    rw [hblock]
    rfl
  have Fnum : beVal (((nodeData ⟨isl, ks, vs, cs, off⟩).drop 1).take 4) = ks.length := by
    rw [hblock]
    show beVal ((beBytes 4 ks.length ++ _).take 4) = ks.length
    rw [take_len_append _ _ 4 (beBytes_length 4 ks.length)]
    exact beVal_beBytes 4 ks.length h2564
  have FK : ∀ i, i < ks.length →
      beVal (((nodeData ⟨isl, ks, vs, cs, off⟩).drop (5 + 4 * i)).take 4) = ks.getD i 0 := by
    intro i hi
    rw [hblock, drop_len_append _ _ 5 (4 * i) hhdr, flat_slice 4 ks _ i hi]
    refine beVal_beBytes 4 _ ?_
    have := hk32 _ (getD_mem ks i hi)
    omega
  have FV : ∀ i, i < ks.length →
      beVal (((nodeData ⟨isl, ks, vs, cs, off⟩).drop (5 + 4 * ks.length + 4 * i)).take 4)
        = vs.getD i 0 := by
    intro i hi
    have hidx : 5 + 4 * ks.length + 4 * i = 5 + (4 * ks.length + 4 * i) := by ring
    rw [hblock, hidx, drop_len_append _ _ 5 (4 * ks.length + 4 * i) hhdr,
      drop_len_append _ _ (4 * ks.length) (4 * i) hkb,
      flat_slice 4 vs _ i (by omega)]
    refine beVal_beBytes 4 _ ?_
    have := hv32 _ (getD_mem vs i (by omega))
    omega
  have FC : ∀ i, i < cs.length →
      beVal (((nodeData ⟨isl, ks, vs, cs, off⟩).drop (5 + 8 * ks.length + 8 * i)).take 8)
        = cs.getD i 0 := by
    intro i hi
    have hidx : 5 + 8 * ks.length + 8 * i =
        5 + (4 * ks.length + (4 * vs.length + 8 * i)) := by omega
    rw [hblock, hidx, drop_len_append _ _ 5 _ hhdr,
      drop_len_append _ _ (4 * ks.length) _ hkb,
      drop_len_append _ _ (4 * vs.length) _ hvb,
      flat_slice 8 cs _ i hi]
    refine beVal_beBytes 8 _ ?_
    have := hc64 _ (getD_mem cs i hi)
    have h2568 : (256 : Nat) ^ 8 = 2 ^ 64 := by norm_num
    omega
  refine ⟨hlen, ?_⟩
  cases isl with
  | true =>
    simp at hc
    subst hc
    have F1t : (nodeData ⟨true, ks, vs, [], off⟩).getD 0 0 = 1 := by simpa using F1
    have hkeys : (List.range ks.length).map
        (fun i => beVal (((nodeData ⟨true, ks, vs, [], off⟩).drop (5 + 4 * i)).take 4)) = ks := by
      rw [List.map_congr_left (fun i hi => FK i (List.mem_range.mp hi))]
      exact map_range_getD ks
    have hvals : (List.range ks.length).map
        (fun i => beVal (((nodeData ⟨true, ks, vs, [], off⟩).drop
          (5 + 4 * ks.length + 4 * i)).take 4)) = vs := by
      rw [List.map_congr_left (fun i hi => FV i (List.mem_range.mp hi))]
      rw [← hv]
      exact map_range_getD vs
    rw [decodeNodeE]
    simp only [F1t, Fnum, hlen]
    norm_num
    exact ⟨by omega, hkeys, hvals⟩
  | false =>
    simp at hc
    have F1f : (nodeData ⟨false, ks, vs, cs, off⟩).getD 0 0 = 0 := by simpa using F1
    have hkeys : (List.range ks.length).map
        (fun i => beVal (((nodeData ⟨false, ks, vs, cs, off⟩).drop (5 + 4 * i)).take 4)) = ks := by
      rw [List.map_congr_left (fun i hi => FK i (List.mem_range.mp hi))]
      exact map_range_getD ks
    have hvals : (List.range ks.length).map
        (fun i => beVal (((nodeData ⟨false, ks, vs, cs, off⟩).drop
          (5 + 4 * ks.length + 4 * i)).take 4)) = vs := by
      rw [List.map_congr_left (fun i hi => FV i (List.mem_range.mp hi))]
      rw [← hv]
      exact map_range_getD vs
    have hchildren : (List.range (ks.length + 1)).map
        (fun i => beVal (((nodeData ⟨false, ks, vs, cs, off⟩).drop
          (5 + 8 * ks.length + 8 * i)).take 8)) = cs := by
      rw [List.map_congr_left (fun i hi => FC i (by rw [hc]; exact List.mem_range.mp hi))]
      rw [← hc]
      exact map_range_getD cs
    rw [decodeNodeE]
    simp only [F1f, Fnum, hlen]
    norm_num
    exact ⟨by omega, hkeys, hvals, hchildren⟩

/-- C5: round-trip of a node.  For every node with `num_keys ≤ 2t-1`,
boolean leaf flag, strictly ascending 32-bit keys, 32-bit values paired
with the keys, and (when internal) `num_keys + 1` 64-bit child offsets
(a leaf carries no child offsets), the encoded block is exactly 512
bytes and decodes back to the same node. -/
theorem node_encode_decode_roundtrip (n : BTreeNode)
    (hk : n.keys.length ≤ 2 * MIN_DEGREE - 1)
    (hv : n.values.length = n.keys.length)
    (hch : if n.is_leaf then n.children = [] else n.children.length = n.keys.length + 1)
    (hasc : List.Chain' (· < ·) n.keys)
    (hk32 : ∀ x ∈ n.keys, x < 2 ^ 32)
    (hv32 : ∀ x ∈ n.values, x < 2 ^ 32)
    (hc64 : ∀ x ∈ n.children, x < 2 ^ 64) :
    (nodeData n).length = 512 ∧ decodeNodeE (nodeData n) n.offset = some n := by
  obtain ⟨isl, ks, vs, cs, off⟩ := n
  have hk7 : ks.length ≤ 7 := by
    simp only [MIN_DEGREE] at hk
    omega
  exact decode_nodeData isl ks vs cs off hk7 hv hch hk32 hv32 hc64

/-- Witness for the round-trip theorem at a concrete internal node. -/
theorem node_encode_decode_roundtrip_witness :
    (nodeData ⟨false, [3, 5], [30, 50], [512, 1024, 1536], 512⟩).length = 512 ∧
    decodeNodeE (nodeData ⟨false, [3, 5], [30, 50], [512, 1024, 1536], 512⟩) 512 =
      some ⟨false, [3, 5], [30, 50], [512, 1024, 1536], 512⟩ :=
  node_encode_decode_roundtrip ⟨false, [3, 5], [30, 50], [512, 1024, 1536], 512⟩
    (by decide) (by decide) (by decide) (by simp [List.chain'_cons]) (by decide) (by decide)
    (by decide)

end Project3

namespace Project3

/-- Helper: packing a valid code point and reading it back is identity. -/
theorem toNat_ofNat_valid (n : Nat) (h : n.isValidChar) : (Char.ofNat n).toNat = n := by
  rw [Char.ofNat, dif_pos h]
  rfl

/-- Helper: lowercasing never turns a non-whitespace character into
whitespace (A-Z map into a-z; everything else is unchanged). -/
theorem toLower_not_whitespace (c : Char) (h : c.isWhitespace = false) :
    (Char.toLower c).isWhitespace = false := by
  unfold Char.toLower
  dsimp only
  split
  · next hc =>
    have hvalid : (Char.toNat c + 32).isValidChar := Or.inl (by omega)
    have hval : (Char.ofNat (Char.toNat c + 32)).toNat = Char.toNat c + 32 :=
      toNat_ofNat_valid _ hvalid
    have hne : ∀ d : Char, d.toNat ≤ 32 → Char.ofNat (Char.toNat c + 32) ≠ d := by
      intro d hd heq
      have h2 := congrArg Char.toNat heq
      rw [hval] at h2
      omega
    have h1 := hne ' ' (by decide)
    have h2 := hne '\t' (by decide)
    have h3 := hne '\r' (by decide)
    have h4 := hne '\n' (by decide)
    simp [Char.isWhitespace, h1, h2, h3, h4]
  · exact h


/-- Helper: `dropWhile` is the identity on a list with no satisfying
elements. -/
theorem dropWhile_none {α : Type} (p : α → Bool) :
    ∀ l : List α, (∀ c ∈ l, p c = false) → l.dropWhile p = l
  | [], _ => rfl
  | a :: l, h => by
    rw [List.dropWhile_cons, h a (by simp)]
    simp

/-- Helper: splitting `open <token>` with `maxsplit=1` yields the command
word and the token. -/
theorem pySplitMax1_open (rest : List Char) (hne : rest ≠ [])
    (h : ∀ c ∈ rest, c.isWhitespace = false) :
    pySplitMax1 ("open ".toList ++ rest) = ["open".toList, rest] := by
  have hstep : pySplitMax1 ("open ".toList ++ rest) =
      (if rest.dropWhile Char.isWhitespace = [] then ["open".toList]
       else ["open".toList, rest.dropWhile Char.isWhitespace]) := rfl
  rw [hstep, dropWhile_none _ rest h, if_neg hne]

/-- C8 amended: the shell lowercases the whole line, arguments included.
For any nonempty whitespace-free argument text, the line `OPEN <arg>` is
recognised as the open command (so the command word is matched
case-insensitively), but the filename handed to the operation is the
LOWERCASED argument, not the argument as typed. -/
theorem shell_open_lowercases_argument (arg : List Char) (h1 : arg ≠ [])
    (h2 : ∀ c ∈ arg, c.isWhitespace = false) :
    parseLineChars ("OPEN ".toList ++ arg) = Command.openFile (pyLower arg) := by
  have harg2ws : ∀ c ∈ pyLower arg, c.isWhitespace = false := by
    intro c hc
    rw [pyLower] at hc
    obtain ⟨d, hd, rfl⟩ := List.mem_map.mp hc
    exact toLower_not_whitespace d (h2 d hd)
  have harg2ne : pyLower arg ≠ [] := by
    simp [pyLower, h1]
  have hcons : "OPEN ".toList ++ arg = 'O' :: ("PEN ".toList ++ arg) := rfl
  have hdrop1 : ("OPEN ".toList ++ arg).dropWhile Char.isWhitespace =
      "OPEN ".toList ++ arg := by
    rw [hcons, List.dropWhile_cons]
    simp
  obtain ⟨a, t, harg⟩ : ∃ a t, arg.reverse = a :: t := by
    cases hrev : arg.reverse with
    | nil => exact absurd (List.reverse_eq_nil_iff.mp hrev) h1
    | cons a t => exact ⟨a, t, rfl⟩
  have hamem : a ∈ arg := by
    have : a ∈ arg.reverse := by
      rw [harg]
      exact List.mem_cons_self a t
    exact List.mem_reverse.mp this
  have hrev2 : ("OPEN ".toList ++ arg).reverse = a :: (t ++ "OPEN ".toList.reverse) := by
    rw [List.reverse_append, harg]
    rfl
  have hdrop2 : (("OPEN ".toList ++ arg).reverse).dropWhile Char.isWhitespace =
      ("OPEN ".toList ++ arg).reverse := by
    rw [hrev2, List.dropWhile_cons, h2 a hamem]
    simp
  have hstrip : pyStrip ("OPEN ".toList ++ arg) = "OPEN ".toList ++ arg := by
    unfold pyStrip
    rw [hdrop1, hdrop2, List.reverse_reverse]
  have hlower : pyLower ("OPEN ".toList ++ arg) = "open ".toList ++ pyLower arg := by
    rw [pyLower, pyLower, List.map_append,
      show ("OPEN ".toList).map Char.toLower = "open ".toList from by decide]
  have hdisp : parseLineChars ("OPEN ".toList ++ arg) =
      (match pySplitMax1 ("open ".toList ++ pyLower arg) with
       | [_, p] => Command.openFile p
       | _ => Command.usageErr) := by
    unfold parseLineChars
    rw [hstrip, hlower]
    rfl
  rw [hdisp, pySplitMax1_open (pyLower arg) harg2ne harg2ws]

/-- Witness for the amended shell theorem at the argument `MyFile`. -/
theorem shell_open_lowercases_argument_witness :
    parseLineChars ("OPEN ".toList ++ "MyFile".toList) =
      Command.openFile (pyLower ("MyFile".toList)) :=
  shell_open_lowercases_argument ("MyFile".toList) (by decide) (by decide)

/-- C8 counterexample: the line `OPEN MyFile` does not open `MyFile`; the
whole line is lowercased before dispatch, so the shell opens `myfile`
instead — the argument's character case is NOT preserved. -/
theorem shell_open_case_counterexample :
    parseLineChars ("OPEN MyFile".toList) = Command.openFile ("myfile".toList) ∧
    ("myfile".toList : List Char) ≠ "MyFile".toList := by
  refine ⟨by decide, by decide⟩


/-- C9: `open` on a valid nonempty index reads the root block through the
STALE session filename.  For any file system, manager state, and path
whose file has correct magic, a full header, and a nonzero root offset:
if no file was open before, the load fails (uncaught `TypeError` on
`open(None)`); if a previous file was open, the root node stored in the
new state is decoded from the PREVIOUS file's bytes at the new file's
root offset — `self.index_file` is assigned only after the root is
constructed. -/
theorem open_reads_root_via_stale_filename
    (fs : FS) (st : ManagerState) (path : String) (f : PFile)
    (hf : fs path = some f)
    (hmagic : readBytes f 0 8 = MAGIC_HEADER)
    (hlen : 16 ≤ f.size)
    (hoff : readBE f 8 8 ≠ 0) :
    (st.indexFile = none → openIndexFile fs st path = OpenOutcome.crash) ∧
    (∀ oldName oldF, st.indexFile = some oldName → fs oldName = some oldF →
      openIndexFile fs st path =
        match decodeNodeE (readBlock oldF (readBE f 8 8)) (readBE f 8 8) with
        | none => OpenOutcome.crash
        | some n => OpenOutcome.ok { indexFile := some path, root := some n }) := by
  have hbase : openIndexFile fs st path =
      match constructNode st.indexFile fs (readBE f 8 8) with
      | .crashL => OpenOutcome.crash
      | .okL n => OpenOutcome.ok { indexFile := some path, root := some n } := by
    unfold openIndexFile
    rw [hf]
    dsimp only
    rw [if_pos hmagic, if_neg (by omega : ¬ f.size < 16), if_neg hoff]
  constructor
  · intro hnone
    rw [hbase]
    unfold constructNode
    rw [hnone]
  · intro oldName oldF hold holdF
    rw [hbase]
    unfold constructNode
    rw [hold]
    dsimp only
    rw [holdF]
    dsimp only
    cases decodeNodeE (readBlock oldF (readBE f 8 8)) (readBE f 8 8) with
    | none => rfl
    | some n => rfl

/-- Witness for the stale-filename theorem: opening `new.idx` (root
offset 512, block `[9]/[90]` at 512) while `old.idx` (block `[7]/[70]`
at 512) is the session file yields a root loaded from `old.idx`. -/
theorem open_reads_root_via_stale_filename_witness :
    openIndexFile c9fs c9st "new.idx" =
      OpenOutcome.ok
        { indexFile := some "new.idx",
          root := some
            { is_leaf := true, keys := [7], values := [70], children := [], offset := 512 } } ∧
    decodeNodeE (readBlock c9NewFile 512) 512 =
      some { is_leaf := true, keys := [9], values := [90], children := [], offset := 512 } := by
  have h := (open_reads_root_via_stale_filename c9fs c9st "new.idx" c9NewFile
    (by decide) (by decide) (by decide) (by decide)).2 "old.idx" c9OldFile rfl (by decide)
  refine ⟨?_, by decide⟩
  rw [h]
  decide

/-- C10: `create` never opens the created file.  The manager state is
returned exactly as it was, and when no index file was open before the
call, `insert`, `search`, `load`, `print` and `extract` all still fail
with the no-index-open error immediately after a successful `create`. -/
theorem create_leaves_session_closed
    (fs : FS) (textFs : TextFS) (st : ManagerState) (path outName dataName : String)
    (confirm : Bool) (fuel k v sk : Nat) :
    (createIndexFile fs st path confirm).2 = st ∧
    (st.indexFile = none →
      (managerInsertFS fuel (createIndexFile fs st path confirm).1 st k v).2.2 =
        InsertMsg.noIndexOpen ∧
      managerSearchFS fuel (createIndexFile fs st path confirm).1 st sk =
        SearchRes.noIndexOpenS ∧
      (loadDataFS fuel (createIndexFile fs st path confirm).1 textFs st dataName).2.2 =
        LoadRes.noIndexOpenL ∧
      printAllFS fuel (createIndexFile fs st path confirm).1 st = PrintRes.noIndexOpenP ∧
      (extractToFileFS fuel (createIndexFile fs st path confirm).1 textFs st outName).2 =
        ExtractRes.noIndexOpenE) := by
  constructor
  · unfold createIndexFile
    cases fs path with
    | none => rfl
    | some f =>
      cases confirm with
      | true => rfl
      | false => rfl
  · intro hnone
    refine ⟨?_, ?_, ?_, ?_, ?_⟩
    · unfold managerInsertFS
      rw [hnone]
    · unfold managerSearchFS
      rw [hnone]
    · unfold loadDataFS
      rw [hnone]
    · unfold printAllFS
      rw [hnone]
    · unfold extractToFileFS
      rw [hnone]

/-- Witness for the create theorem on an empty file system and a closed
session. -/
theorem create_leaves_session_closed_witness :
    (createIndexFile (fun _ => none) ⟨none, none⟩ "a.idx" true).2 = ⟨none, none⟩ ∧
    (managerInsertFS 5 (createIndexFile (fun _ => none) ⟨none, none⟩ "a.idx" true).1
      ⟨none, none⟩ 1 2).2.2 = InsertMsg.noIndexOpen ∧
    managerSearchFS 5 (createIndexFile (fun _ => none) ⟨none, none⟩ "a.idx" true).1
      ⟨none, none⟩ 3 = SearchRes.noIndexOpenS ∧
    (loadDataFS 5 (createIndexFile (fun _ => none) ⟨none, none⟩ "a.idx" true).1
      (fun _ => none) ⟨none, none⟩ "d.csv").2.2 = LoadRes.noIndexOpenL ∧
    printAllFS 5 (createIndexFile (fun _ => none) ⟨none, none⟩ "a.idx" true).1
      ⟨none, none⟩ = PrintRes.noIndexOpenP ∧
    (extractToFileFS 5 (createIndexFile (fun _ => none) ⟨none, none⟩ "a.idx" true).1
      (fun _ => none) ⟨none, none⟩ "o.csv").2 = ExtractRes.noIndexOpenE := by
  have h := create_leaves_session_closed (fun _ => none) (fun _ => none) ⟨none, none⟩
    "a.idx" "o.csv" "d.csv" true 5 1 2 3
  obtain ⟨ha, hb⟩ := h
  obtain ⟨h1, h2, h3, h4, h5⟩ := hb rfl
  exact ⟨ha, h1, h2, h3, h4, h5⟩

end Project3
